import Mathlib

/-!
Verification of the nba-milestones reconciliation engine.

Shallow embedding of the reconciliation scripts:
  scripts/coverage_scan_single.py        (retry executor, fetch normalization, aggregator)
  scripts/validate_alltime_leaders.py    (retry executor, cache, corrected-total read, validation)
  scripts/poc_create_season_overrides.py (override upsert, per-player delta loop)
  scripts/batch_overrides_from_discrepancies.py (override upsert, delta loop, batch driver)
  scripts/update_active_players_nba_api.py (active-player batch update driver)

Machine integers are modelled as Int (SQLite integers and Python ints are
unbounded for the magnitudes involved); the float backoff delays are modelled
as rationals with the exact constants 0.8 = 4/5 and 8; fallible operations
return Except or Option.
-/

set_option autoImplicit false

/-- The five tracked metric columns of a season or game row
(points, rebounds, assists, steals, blocks). -/
structure MetricVals where
  points : Int
  rebounds : Int
  assists : Int
  steals : Int
  blocks : Int
  deriving DecidableEq

def zeroVals : MetricVals := ⟨0, 0, 0, 0, 0⟩

def addVals (a b : MetricVals) : MetricVals :=
  ⟨a.points + b.points, a.rebounds + b.rebounds, a.assists + b.assists,
   a.steals + b.steals, a.blocks + b.blocks⟩

def subVals (a b : MetricVals) : MetricVals :=
  ⟨a.points - b.points, a.rebounds - b.rebounds, a.assists - b.assists,
   a.steals - b.steals, a.blocks - b.blocks⟩

/-- METRICS from coverage_scan_single.py: source column name paired with
the destination (database) column name. -/
def METRICS : List (String × String) :=
  [("PTS", "points"), ("REB", "rebounds"), ("AST", "assists"),
   ("STL", "steals"), ("BLK", "blocks")]

/-- The database-side metric column names. -/
def dbCols : List String := METRICS.map Prod.snd

/-- Project one named metric column out of a value record
(the dynamic column access used by get_db_total and the reports). -/
def colOf (v : MetricVals) (col : String) : Int :=
  if col = "points" then v.points
  else if col = "rebounds" then v.rebounds
  else if col = "assists" then v.assists
  else if col = "steals" then v.steals
  else if col = "blocks" then v.blocks
  else 0

/-- The nonzero flag of the per-season delta loop in process_player:
true when at least one of the five metric deltas is nonzero. -/
def hasNonzeroDelta (v : MetricVals) : Bool :=
  decide (v.points ≠ 0) || decide (v.rebounds ≠ 0) || decide (v.assists ≠ 0) ||
  decide (v.steals ≠ 0) || decide (v.blocks ≠ 0)

/-- First-match association-list lookup, the model of Python dict access
and of pandas row lookup by unique key. -/
def alookup {β : Type} (k : String) : List (String × β) → Option β
  | [] => none
  | e :: rest => if k = e.1 then some e.2 else alookup k rest

def keysOf {β : Type} (rows : List (String × β)) : List String := rows.map Prod.fst

/-! ## Season Aligner (pd.merge how="outer" on the season key, then fillna(0)) -/

/-- Season keys of the outer merge of the two season series: every season of
the left (official) series followed by the seasons only the right (local)
series has.  pandas sorts outer-join keys; the order is immaterial here
because persistence is keyed, so we keep left-then-unmatched-right order. -/
def alignedSeasons (nba db : List (String × MetricVals)) : List String :=
  keysOf nba ++ (keysOf db).filter (fun s => decide (s ∉ keysOf nba))

/-- One row of the merged frame after the presence flags and the
fillna(0) normalization of coverage_scan_single.main / process_player. -/
structure AlignedRow where
  season : String
  nbaVals : MetricVals
  dbVals : MetricVals
  nbaPresent : Bool
  dbPresent : Bool
  deriving DecidableEq

def alignedRowAt (nba db : List (String × MetricVals)) (s : String) : AlignedRow :=
  ⟨s, (alookup s nba).getD zeroVals, (alookup s db).getD zeroVals,
   (alookup s nba).isSome, (alookup s db).isSome⟩

def alignRows (nba db : List (String × MetricVals)) : List AlignedRow :=
  (alignedSeasons nba db).map (alignedRowAt nba db)

/-- Per-season metric deltas, NBA minus DB, as computed row by row in
process_player (batch_overrides_from_discrepancies.py lines 92-96). -/
def deltaAt (nba db : List (String × MetricVals)) (s : String) : MetricVals :=
  subVals (alignedRowAt nba db s).nbaVals (alignedRowAt nba db s).dbVals

/-- The (season, deltas) pairs that process_player upserts: exactly the
aligned seasons whose delta set has at least one nonzero metric. -/
def processPlayer (nba db : List (String × MetricVals)) : List (String × MetricVals) :=
  (alignedSeasons nba db).filterMap (fun s =>
    if hasNonzeroDelta (deltaAt nba db s) then some (s, deltaAt nba db s) else none)

/-! ## Override Store (season_totals_override and upsert_override) -/

structure OverrideKey where
  player_id : String
  season : String
  season_type : String
  deriving DecidableEq

structure OverrideRecord where
  key : OverrideKey
  vals : MetricVals
  deriving DecidableEq

def regularSeason : String := "Regular Season"

/-- deltas.get(name, 0) for each of the five metric columns: the VALUES
tuple of the INSERT in upsert_override. -/
def mkVals (deltas : List (String × Int)) : MetricVals :=
  ⟨(alookup "points" deltas).getD 0, (alookup "rebounds" deltas).getD 0,
   (alookup "assists" deltas).getD 0, (alookup "steals" deltas).getD 0,
   (alookup "blocks" deltas).getD 0⟩

/-- The deltas dict built by the loop in process_player (one entry per
tracked metric, in METRICS order). -/
def deltasDict (v : MetricVals) : List (String × Int) :=
  [("points", v.points), ("rebounds", v.rebounds), ("assists", v.assists),
   ("steals", v.steals), ("blocks", v.blocks)]

def hasKey (table : List OverrideRecord) (k : OverrideKey) : Bool :=
  table.any (fun r => decide (r.key = k))

/-- INSERT ... ON CONFLICT(player_id, season, season_type) DO UPDATE SET of
upsert_override: the primary key guarantees at most one row per key, so a
conflicting row has every metric column overwritten in place; otherwise a
new row is inserted. season_type is fixed to 'Regular Season'. -/
def upsertOverride (table : List OverrideRecord) (pid season : String)
    (deltas : List (String × Int)) : List OverrideRecord :=
  if hasKey table ⟨pid, season, regularSeason⟩ then
    table.map (fun r =>
      if r.key = ⟨pid, season, regularSeason⟩ then ⟨r.key, mkVals deltas⟩ else r)
  else
    table ++ [⟨⟨pid, season, regularSeason⟩, mkVals deltas⟩]

/-- Read one override row by primary key. -/
def findOverride (table : List OverrideRecord) (k : OverrideKey) : Option MetricVals :=
  (table.find? (fun r => decide (r.key = k))).map OverrideRecord.vals

/-- The upsert loop of process_player over its nonzero delta seasons. -/
def applyProcessPlayer (table : List OverrideRecord) (pid : String)
    (nba db : List (String × MetricVals)) : List OverrideRecord :=
  (processPlayer nba db).foldl (fun t e => upsertOverride t pid e.1 (deltasDict e.2)) table

/-- The override row that upserting one (season, deltas) pair of
process_player inserts for a player. -/
def recOf (pid : String) (e : String × MetricVals) : OverrideRecord :=
  ⟨⟨pid, e.1, regularSeason⟩, mkVals (deltasDict e.2)⟩

/-! ## Local Totals Aggregator (db_career_by_season, get_db_total) -/

/-- One row of the game_summary fact table. -/
structure GameRow where
  player_id : String
  season : String
  season_type : String
  vals : MetricVals
  deriving DecidableEq

/-- The WHERE clause of db_career_by_season and get_db_total:
rows of one player restricted to the regular-season partition. -/
def playerRegularGames (log : List GameRow) (pid : String) : List GameRow :=
  log.filter (fun g => decide (g.player_id = pid ∧ g.season_type = regularSeason))

def sumVals (l : List MetricVals) : MetricVals := l.foldr addVals zeroVals

/-- db_career_by_season: SUM of each metric column grouped by season over
the player's regular-season game rows. -/
def dbCareerBySeason (log : List GameRow) (pid : String) : List (String × MetricVals) :=
  let rows := playerRegularGames log pid
  ((rows.map GameRow.season).dedup).map
    (fun s => (s, sumVals ((rows.filter (fun g => decide (g.season = s))).map GameRow.vals)))

/-- The override rows get_db_total sums: same player, regular season. -/
def overrideRowsFor (table : List OverrideRecord) (pid : String) : List OverrideRecord :=
  table.filter (fun r => decide (r.key.player_id = pid ∧ r.key.season_type = regularSeason))

/-- get_db_total (validate_alltime_leaders.py lines 148-176): raw game-log
sum plus the sum of the override rows for the player and season type. -/
def getDbTotal (log : List GameRow) (table : List OverrideRecord) (pid col : String) : Int :=
  ((playerRegularGames log pid).map (fun g => colOf g.vals col)).sum
    + ((overrideRowsFor table pid).map (fun r => colOf r.vals col)).sum

/-- Override table produced by one full reconciliation of one player
starting from an empty table. -/
def reconciledTable (log : List GameRow) (pid : String)
    (nba : List (String × MetricVals)) : List OverrideRecord :=
  applyProcessPlayer [] pid nba (dbCareerBySeason log pid)

/-- The official career total: the sum of one metric over the official
per-season series. -/
def officialCareerTotal (nba : List (String × MetricVals)) (col : String) : Int :=
  (nba.map (fun p => colOf p.2 col)).sum

/-! ## Resilient Request Executor (request_with_retries, _should_retry_error) -/

def MAX_ATTEMPTS : Nat := 5
def BASE_DELAY : ℚ := 4/5
def MAX_DELAY : ℚ := 8

/-- The transient-failure markers of _should_retry_error, already lowercase. -/
def transientMarkers : List String :=
  ["429", "too many requests", "timeout", "timed out", "connection reset",
   "temporary", "service unavailable", "503", "502", "bad gateway"]

/-- Whether the pattern is a leading segment of the text. -/
def leadMatch : List Char → List Char → Bool
  | [], _ => true
  | _ :: _, [] => false
  | p :: ps, c :: cs => p == c && leadMatch ps cs

/-- Whether the pattern occurs as a contiguous substring of the text
(the Python in-operator on strings). -/
def hasSubChars (pat : List Char) : List Char → Bool
  | [] => pat.isEmpty
  | c :: cs => leadMatch pat (c :: cs) || hasSubChars pat cs

def lowerChars (l : List Char) : List Char := l.map Char.toLower

/-- _should_retry_error: lowercase the textual description of the error and
test each transient marker for substring containment. -/
def shouldRetryError (msg : String) : Bool :=
  transientMarkers.any (fun m => hasSubChars m.data (lowerChars msg.data))

/-- delay = min(MAX_DELAY, BASE_DELAY * 2 ** (attempt - 1)). -/
def backoffDelay (attempt : Nat) : ℚ :=
  min MAX_DELAY (BASE_DELAY * 2 ^ (attempt - 1))

/-- The attempt numbers range(start, start + n). -/
def attemptList (start : Nat) : Nat → List Nat
  | 0 => []
  | n + 1 => start :: attemptList (start + 1) n

/-- The retry loop of request_with_retries.  The operation is indexed by
the attempt number; the jitter oracle u gives the random.uniform(0.2, 0.5)
draw of each attempt.  Returns the final result together with the
(delay, jitter) pair of every backoff sleep that was performed. -/
def retryLoop {α : Type} (op : Nat → Except String α) (u : Nat → ℚ) :
    List Nat → Except String α × List (ℚ × ℚ)
  | [] => (Except.error "", [])
  | attempt :: rest =>
    match op attempt with
    | Except.ok a => (Except.ok a, [])
    | Except.error e =>
      if MAX_ATTEMPTS ≤ attempt ∨ shouldRetryError e = false then
        (Except.error e, [])
      else
        let d := backoffDelay attempt
        let out := retryLoop op u rest
        (out.1, (d, d * u attempt) :: out.2)

def requestWithRetries {α : Type} (op : Nat → Except String α) (u : Nat → ℚ) :
    Except String α × List (ℚ × ℚ) :=
  retryLoop op u (attemptList 1 MAX_ATTEMPTS)

/-- The expected backoff trace of k retries starting at the given attempt. -/
def retryTrace (u : Nat → ℚ) (start k : Nat) : List (ℚ × ℚ) :=
  (attemptList start k).map (fun i => (backoffDelay i, backoffDelay i * u i))

/-! ## Fetcher normalization (nba_career_by_season, validate_metric) -/

/-- One cell of a remote tabular response: a number, arbitrary text, or a
missing value (None / NaN). -/
inductive CellValue where
  | num (n : Int)
  | text (s : String)
  | null
  deriving DecidableEq

def parseDigitsAcc (acc : Nat) : List Char → Option Nat
  | [] => some acc
  | c :: cs => if c.isDigit then parseDigitsAcc (acc * 10 + (c.toNat - 48)) cs else none

def parseNatChars : List Char → Option Nat
  | [] => none
  | l => parseDigitsAcc 0 l

/-- Parse an optionally signed decimal integer; anything else fails
(the success / ValueError split of Python int() on a string). -/
def parseIntChars : List Char → Option Int
  | '-' :: rest => (parseNatChars rest).map (fun n => -(n : Int))
  | l => (parseNatChars l).map (fun n => (n : Int))

def parseIntStr (s : String) : Option Int := parseIntChars s.data

/-- pd.to_numeric(..., errors="coerce") on one cell: numbers pass through,
numeric text parses, anything else becomes missing. -/
def toNumericCoerce : CellValue → Option Int
  | CellValue.num n => some n
  | CellValue.text s => parseIntStr s
  | CellValue.null => none

/-- to_numeric coerce followed by fillna(0).astype(int). -/
def coerceFillZeroInt (v : CellValue) : Int := (toNumericCoerce v).getD 0

/-- The per-cell normalization of nba_career_by_season (lines 93-99):
a column missing from the frame is created as 0, and every kept cell goes
through to_numeric coerce + fillna(0) + astype(int). -/
def normalizeCell (row : List (String × CellValue)) (col : String) : Int :=
  match alookup col row with
  | some v => coerceFillZeroInt v
  | none => 0

/-- Official-value column selection of validate_metric (lines 292-300):
the metric column, else the VALUE column, else the lowercase metric column. -/
def officialValueOf (row : List (String × CellValue)) (tableKey tableKeyLower : String) :
    Option CellValue :=
  match alookup tableKey row with
  | some v => some v
  | none =>
    match alookup "VALUE" row with
    | some v => some v
    | none => alookup tableKeyLower row

/-- Python int(x) on an optional cell: integers pass, numeric text parses,
None / NaN / non-numeric text raise (modelled as none). -/
def pyInt : Option CellValue → Option Int
  | some (CellValue.num n) => some n
  | some (CellValue.text s) => parseIntStr s
  | some CellValue.null => none
  | none => none

/-- One leaderboard row of validate_metric (lines 291-324), given the
already-computed DB total: on int() failure the row is skipped via
continue (result none); otherwise the report row carries the official
value and delta = db_total - official. -/
def validateMetricRow (row : List (String × CellValue)) (tableKey tableKeyLower : String)
    (dbTotal : Int) : Option (Int × Int) :=
  match pyInt (officialValueOf row tableKey tableKeyLower) with
  | some official => some (official, dbTotal - official)
  | none => none

/-! ## Totals Cache (_load_cache, fetch_official_totals) -/

/-- The on-disk cache file as seen by json.load: absent, unreadable or
unparsable, a parsed dict, or parsed but not a dict. -/
inductive CacheFile where
  | absent
  | corrupt
  | parsedDict (d : List (String × List (String × Int)))
  | parsedOther

/-- _load_cache (lines 40-50): only a successfully parsed dict populates
the in-memory cache; every other outcome leaves it empty. -/
def loadCache : CacheFile → List (String × List (String × Int))
  | CacheFile.parsedDict d => d
  | _ => []

def fiveKeys : List String := ["PTS", "REB", "AST", "STL", "BLK"]

/-- The cache-hit test of fetch_official_totals (line 214): the record is
truthy (non-empty) and contains all five tracked metric keys. -/
def fullRecord (rec : List (String × Int)) : Bool :=
  decide (rec ≠ []) && fiveKeys.all (fun k => (alookup k rec).isSome)

def cacheHit (cache : List (String × List (String × Int))) (pid : String) :
    Option (List (String × Int)) :=
  match alookup pid cache with
  | some rec => if fullRecord rec then some rec else none
  | none => none

/-- Outcome of the remote career-stats call inside fetch_official_totals:
a matching frame with computed totals, no usable frame, or an exception. -/
inductive RemoteResult where
  | frames (totals : List (String × Int))
  | noData
  | raises

structure FetchOutcome where
  result : Option (List (String × Int))
  remoteCalled : Bool
  newCache : List (String × List (String × Int))
  deriving DecidableEq

/-- Python dict assignment into the in-memory cache. -/
def setCacheEntry (cache : List (String × List (String × Int))) (pid : String)
    (totals : List (String × Int)) : List (String × List (String × Int)) :=
  if (alookup pid cache).isSome then
    cache.map (fun e => if e.1 = pid then (pid, totals) else e)
  else
    cache ++ [(pid, totals)]

/-- fetch_official_totals (lines 206-244): a full cached record is returned
as-is without a remote call; otherwise the remote fetch runs, a successful
result is written back to the cache and returned, and no-data or an
exception yields None with the cache unchanged. -/
def fetchOfficialTotals (cache : List (String × List (String × Int))) (pid : String)
    (remote : RemoteResult) : FetchOutcome :=
  match cacheHit cache pid with
  | some rec => ⟨some rec, false, cache⟩
  | none =>
    match remote with
    | RemoteResult.frames totals => ⟨some totals, true, setCacheEntry cache pid totals⟩
    | RemoteResult.noData => ⟨none, true, cache⟩
    | RemoteResult.raises => ⟨none, true, cache⟩

/-! ## Batch drivers (batch_overrides main, update_database) -/

/-- The per-player loop of batch_overrides_from_discrepancies.main
(lines 117-121): no try/except around process_player, so a failure
propagates out of the loop; successes accumulate the updated count. -/
def batchLoop (process : String → Except String Nat) (total : Nat) :
    List String → Except String Nat
  | [] => Except.ok total
  | pid :: rest =>
    match process pid with
    | Except.ok n => batchLoop process (total + n) rest
    | Except.error e => Except.error e

def batchOverridesMain (players : List String) (process : String → Except String Nat) :
    Except String Nat :=
  batchLoop process 0 players

/-- The stats dict of update_database. -/
structure BatchStats where
  players_processed : Nat
  games_added : Nat
  games_skipped : Nat
  errors : Nat
  deriving DecidableEq

/-- One iteration of the per-player loop of update_database (lines 107-162):
the body yields the games added and skipped before finishing or failing;
a failure is caught, counted in errors, and the loop continues. -/
def updStep (body : String → Nat × Nat × Option String) (st : BatchStats) (pid : String) :
    BatchStats :=
  let r := body pid
  match r.2.2 with
  | none => ⟨st.players_processed + 1, st.games_added + r.1, st.games_skipped + r.2.1, st.errors⟩
  | some _ => ⟨st.players_processed, st.games_added + r.1, st.games_skipped + r.2.1, st.errors + 1⟩

def updateDatabase (players : List String) (body : String → Nat × Nat × Option String) :
    BatchStats :=
  players.foldl (updStep body) ⟨0, 0, 0, 0⟩

/-! ## Helper lemmas: metric values -/

theorem colOf_zeroVals (col : String) : colOf zeroVals col = 0 := by
  unfold colOf zeroVals
  repeat' split
  all_goals rfl

theorem colOf_addVals (a b : MetricVals) (col : String) :
    colOf (addVals a b) col = colOf a col + colOf b col := by
  unfold colOf addVals
  repeat' split
  all_goals simp

theorem colOf_subVals (a b : MetricVals) (col : String) :
    colOf (subVals a b) col = colOf a col - colOf b col := by
  unfold colOf subVals
  repeat' split
  all_goals simp

theorem colOf_sumVals (l : List MetricVals) (col : String) :
    colOf (sumVals l) col = (l.map (fun v => colOf v col)).sum := by
  induction l with
  | nil => simp [sumVals, colOf_zeroVals]
  | cons v rest ih =>
    simp only [sumVals, List.foldr_cons, List.map_cons, List.sum_cons]
    rw [show (List.foldr addVals zeroVals rest) = sumVals rest from rfl]
    rw [colOf_addVals, ih]

theorem eq_zeroVals_of_not_nonzero (v : MetricVals) (h : hasNonzeroDelta v = false) :
    v = zeroVals := by
  unfold hasNonzeroDelta at h
  simp only [Bool.or_eq_false_iff, decide_eq_false_iff_not, not_not] at h
  obtain ⟨⟨⟨⟨h1, h2⟩, h3⟩, h4⟩, h5⟩ := h
  cases v
  simp_all [zeroVals]

theorem hasNonzeroDelta_zeroVals : hasNonzeroDelta zeroVals = false := rfl

theorem mkVals_deltasDict (v : MetricVals) : mkVals (deltasDict v) = v := rfl

/-! ## Helper lemmas: association lists -/

theorem alookup_eq_none {β : Type} (k : String) (rows : List (String × β)) :
    alookup k rows = none ↔ k ∉ keysOf rows := by
  induction rows with
  | nil => simp [alookup, keysOf]
  | cons e rest ih =>
    by_cases h : k = e.1
    · simp [alookup, keysOf, h]
    · simp [alookup, keysOf, h] at ih ⊢
      simp [ih]

theorem alookup_isSome_iff {β : Type} (k : String) (rows : List (String × β)) :
    (alookup k rows).isSome = true ↔ k ∈ keysOf rows := by
  rw [Option.isSome_iff_ne_none]
  constructor
  · intro h
    by_contra hk
    exact h ((alookup_eq_none k rows).mpr hk)
  · intro h hn
    exact ((alookup_eq_none k rows).mp hn) h

/-! ## Helper lemmas: override upsert -/

theorem findOverride_upsert (table : List OverrideRecord) (pid season : String)
    (deltas : List (String × Int)) :
    findOverride (upsertOverride table pid season deltas) ⟨pid, season, regularSeason⟩
      = some (mkVals deltas) := by
  unfold upsertOverride
  by_cases h : hasKey table ⟨pid, season, regularSeason⟩
  · simp only [h, if_true]
    induction table with
    | nil => simp [hasKey] at h
    | cons r rest ih =>
      by_cases hr : r.key = (⟨pid, season, regularSeason⟩ : OverrideKey)
      · simp [findOverride, List.find?_cons, hr]
      · have hrest : hasKey rest ⟨pid, season, regularSeason⟩ := by
          unfold hasKey at h ⊢
          simp only [List.any_cons, Bool.or_eq_true, decide_eq_true_eq] at h
          rcases h with h | h
          · exact absurd h hr
          · exact h
        simpa [findOverride, List.find?_cons, hr] using ih hrest
  · simp only [h, if_false]
    have hnone : (table.find? fun r => decide (r.key = ⟨pid, season, regularSeason⟩)) = none := by
      rw [List.find?_eq_none]
      intro r hr
      unfold hasKey at h
      simp only [Bool.not_eq_true, List.any_eq_false, decide_eq_true_eq] at h
      simp [h r hr]
    simp [findOverride, List.find?_append, hnone]

theorem vals_of_mem_upsert (table : List OverrideRecord) (pid season : String)
    (deltas : List (String × Int)) (r : OverrideRecord)
    (hr : r ∈ upsertOverride table pid season deltas)
    (hk : r.key = ⟨pid, season, regularSeason⟩) : r.vals = mkVals deltas := by
  unfold upsertOverride at hr
  by_cases h : hasKey table ⟨pid, season, regularSeason⟩
  · rw [if_pos h] at hr
    obtain ⟨r0, _, hmap⟩ := List.mem_map.mp hr
    by_cases h0 : r0.key = (⟨pid, season, regularSeason⟩ : OverrideKey)
    · simp only [h0, if_true] at hmap
      rw [← hmap]
    · simp only [h0, if_false] at hmap
      rw [← hmap] at hk
      exact absurd hk h0
  · rw [if_neg h] at hr
    rcases List.mem_append.mp hr with hr | hr
    · unfold hasKey at h
      simp only [Bool.not_eq_true, List.any_eq_false, decide_eq_true_eq] at h
      exact absurd hk (h r hr)
    · rw [List.mem_singleton.mp hr]

theorem hasKey_of_findOverride (table : List OverrideRecord) (k : OverrideKey) (v : MetricVals)
    (h : findOverride table k = some v) : hasKey table k = true := by
  unfold findOverride at h
  obtain ⟨r, hr, hval⟩ := Option.map_eq_some'.mp h
  have hmem := List.mem_of_find?_eq_some hr
  have hpred := List.find?_some hr
  unfold hasKey
  simp only [List.any_eq_true, decide_eq_true_eq]
  exact ⟨r, hmem, of_decide_eq_true hpred⟩

theorem upsertOverride_idem (table : List OverrideRecord) (pid season : String)
    (deltas : List (String × Int)) :
    upsertOverride (upsertOverride table pid season deltas) pid season deltas
      = upsertOverride table pid season deltas := by
  have hfind := findOverride_upsert table pid season deltas
  have hhas := hasKey_of_findOverride _ _ _ hfind
  conv_lhs => rw [upsertOverride]
  rw [if_pos hhas]
  have hid : ∀ r ∈ upsertOverride table pid season deltas,
      (if r.key = (⟨pid, season, regularSeason⟩ : OverrideKey)
        then (⟨r.key, mkVals deltas⟩ : OverrideRecord) else r) = r := by
    intro r hr
    by_cases h0 : r.key = (⟨pid, season, regularSeason⟩ : OverrideKey)
    · rw [if_pos h0]
      have := vals_of_mem_upsert table pid season deltas r hr h0
      cases r
      simp_all
    · rw [if_neg h0]
  calc (upsertOverride table pid season deltas).map
        (fun r => if r.key = (⟨pid, season, regularSeason⟩ : OverrideKey)
          then (⟨r.key, mkVals deltas⟩ : OverrideRecord) else r)
      = (upsertOverride table pid season deltas).map id := List.map_congr_left hid
    _ = upsertOverride table pid season deltas := List.map_id _

/-- Claim C4: the override upsert is idempotent and wholesale.  Applying the
same upsert twice for the same (player_id, season, season_type) key and delta
set leaves the Override Store in the same state as applying it once, and
after an upsert the row stored under the key holds exactly the five metric
values taken from the supplied deltas, regardless of any prior record. -/
theorem c4_upsert_idempotent (table : List OverrideRecord) (pid season : String)
    (deltas : List (String × Int)) :
    upsertOverride (upsertOverride table pid season deltas) pid season deltas
        = upsertOverride table pid season deltas
    ∧ findOverride (upsertOverride table pid season deltas) ⟨pid, season, regularSeason⟩
        = some (mkVals deltas) :=
  ⟨upsertOverride_idem table pid season deltas, findOverride_upsert table pid season deltas⟩

/-- Claim C10: every upsert writes all five metric columns; a metric key
absent from the deltas mapping is stored as 0, so a partial deltas mapping
over an existing record zeroes the unlisted metrics. -/
theorem c10_partial_deltas_zeroed (table : List OverrideRecord) (pid season : String)
    (deltas : List (String × Int)) (col : String)
    (hcol : col ∈ dbCols) (habs : alookup col deltas = none) :
    findOverride (upsertOverride table pid season deltas) ⟨pid, season, regularSeason⟩
        = some (mkVals deltas)
    ∧ colOf (mkVals deltas) col = 0 := by
  refine ⟨findOverride_upsert table pid season deltas, ?_⟩
  simp only [dbCols, METRICS, List.map_cons, List.map_nil, List.mem_cons,
    List.not_mem_nil, or_false] at hcol
  rcases hcol with h | h | h | h | h <;> subst h <;>
    simp [colOf, mkVals, habs]

/-- Witness for C10 at a concrete store: a prior record with rebounds 3 is
wholesale-overwritten by a deltas mapping listing only points, and the
unlisted rebounds column is stored as 0. -/
theorem c10_witness :
    findOverride
        (upsertOverride
          [⟨⟨"p1", "2019-20", "Regular Season"⟩, ⟨1, 3, 0, 0, 0⟩⟩]
          "p1" "2019-20" [("points", 5)])
        ⟨"p1", "2019-20", "Regular Season"⟩
      = some (mkVals [("points", 5)])
    ∧ colOf (mkVals [("points", 5)]) "rebounds" = 0 :=
  c10_partial_deltas_zeroed
    [⟨⟨"p1", "2019-20", "Regular Season"⟩, ⟨1, 3, 0, 0, 0⟩⟩]
    "p1" "2019-20" [("points", 5)] "rebounds" (by decide) (by decide)

/-! ## Batch driver theorems (C5) -/

theorem batchLoop_abort (process : String → Except String Nat) (p : String) (e : String)
    (post : List String) (hp : process p = Except.error e) :
    ∀ (pre : List String), (∀ q ∈ pre, ∃ n, process q = Except.ok n) →
    ∀ (total : Nat), batchLoop process total (pre ++ p :: post) = Except.error e := by
  intro pre
  induction pre with
  | nil =>
    intro _ total
    simp only [List.nil_append, batchLoop, hp]
  | cons q rest ih =>
    intro hpre total
    obtain ⟨n, hq⟩ := hpre q (List.mem_cons_self q rest)
    simp only [List.cons_append, batchLoop, hq]
    exact ih (fun r hr => hpre r (List.mem_cons_of_mem q hr)) (total + n)

theorem updateDatabase_foldl (body : String → Nat × Nat × Option String)
    (players : List String) :
    ∀ (init : BatchStats),
      (players.foldl (updStep body) init).errors
          = init.errors + (players.filter (fun p => ((body p).2.2).isSome)).length
      ∧ (players.foldl (updStep body) init).players_processed
          = init.players_processed + (players.filter (fun p => ((body p).2.2).isNone)).length := by
  induction players with
  | nil => intro init; simp
  | cons p rest ih =>
    intro init
    simp only [List.foldl_cons, List.filter_cons]
    obtain ⟨ih1, ih2⟩ := ih (updStep body init p)
    cases hb : (body p).2.2 with
    | none =>
      constructor
      · rw [ih1]
        simp [updStep, hb]
      · rw [ih2]
        simp [updStep, hb, Nat.add_assoc, Nat.add_comm 1]
    | some msg =>
      constructor
      · rw [ih1]
        simp [updStep, hb, Nat.add_assoc, Nat.add_comm 1]
      · rw [ih2]
        simp [updStep, hb]

/-- Counterexample to claim C5 as stated: in the override batch driver
(batch_overrides_from_discrepancies.main) a failure while processing one
player is NOT caught — the run aborts with that error even though the next
player would have succeeded. -/
theorem c5_counterexample :
    (fun p => if p = "1" then Except.error "boom" else Except.ok 1) "2" = Except.ok 1
    ∧ batchOverridesMain ["1", "2"]
        (fun p => if p = "1" then Except.error "boom" else Except.ok 1)
        = Except.error "boom" :=
  ⟨rfl, rfl⟩

/-- Claim C5 (amended): in the active-player update batch (update_database)
a failure while processing one player is caught and counted as an error and
the batch continues — every player is visited, errors counts exactly the
failing players and players_processed exactly the succeeding ones; in the
override batch driver (batch_overrides main) a failure while processing a
player propagates and aborts the whole run. -/
theorem c5_batch_isolation_amended :
    (∀ (players : List String) (body : String → Nat × Nat × Option String),
      (updateDatabase players body).errors
          = (players.filter (fun p => ((body p).2.2).isSome)).length
      ∧ (updateDatabase players body).players_processed
          = (players.filter (fun p => ((body p).2.2).isNone)).length)
    ∧ (∀ (pre post : List String) (p : String) (process : String → Except String Nat)
        (e : String), (∀ q ∈ pre, ∃ n, process q = Except.ok n) →
        process p = Except.error e →
        batchOverridesMain (pre ++ p :: post) process = Except.error e) := by
  constructor
  · intro players body
    have h := updateDatabase_foldl body players ⟨0, 0, 0, 0⟩
    simpa [updateDatabase] using h
  · intro pre post p process e hpre hp
    exact batchLoop_abort process p e post hp pre hpre 0

/-- Witness for C5: concrete batches exercising both halves. -/
theorem c5_witness :
    batchOverridesMain (["a"] ++ "b" :: ["c"])
        (fun p => if p = "b" then Except.error "x" else Except.ok 2)
      = Except.error "x" :=
  c5_batch_isolation_amended.2 ["a"] ["c"] "b"
    (fun p => if p = "b" then Except.error "x" else Except.ok 2) "x"
    (by
      intro q hq
      simp only [List.mem_singleton] at hq
      subst hq
      exact ⟨2, rfl⟩)
    rfl

/-! ## Resilient Request Executor theorems (C6, C7) -/

/-- Claim C7: an operation whose error text matches no transient marker
(case-insensitive substring classification) is attempted exactly once:
the executor performs no backoff sleep and re-raises that error. -/
theorem c7_nontransient_single_attempt {α : Type} (op : Nat → Except String α)
    (u : Nat → ℚ) (e : String)
    (hop : op 1 = Except.error e) (hnr : shouldRetryError e = false) :
    requestWithRetries op u = (Except.error e, []) := by
  have hlist : attemptList 1 MAX_ATTEMPTS = [1, 2, 3, 4, 5] := rfl
  unfold requestWithRetries
  rw [hlist]
  simp [retryLoop, hop, hnr]

/-- Witness for C7: a 404-style error is classified non-transient and is
raised after a single attempt with no retries. -/
theorem c7_witness :
    requestWithRetries (fun _ => (Except.error "404 not found" : Except String Nat))
        (fun _ => (1/4 : ℚ))
      = (Except.error "404 not found", ([] : List (ℚ × ℚ))) :=
  c7_nontransient_single_attempt
    (fun _ => (Except.error "404 not found" : Except String Nat))
    (fun _ => (1/4 : ℚ)) "404 not found" rfl (by decide)

theorem attemptList_length (n : Nat) : ∀ s, (attemptList s n).length = n := by
  induction n with
  | zero => intro s; rfl
  | succ n ih => intro s; simp [attemptList, ih]

theorem retryLoop_ok {α : Type} (op : Nat → Except String α) (u : Nat → ℚ) (v : α) :
    ∀ (k a : Nat), 1 ≤ a → a + k ≤ MAX_ATTEMPTS →
    (∀ i, a ≤ i → i < a + k → ∃ e, op i = Except.error e ∧ shouldRetryError e = true) →
    op (a + k) = Except.ok v →
    retryLoop op u (attemptList a (MAX_ATTEMPTS + 1 - a)) = (Except.ok v, retryTrace u a k) := by
  intro k
  induction k with
  | zero =>
    intro a ha hak hfail hok
    have h6 : MAX_ATTEMPTS + 1 - a = (MAX_ATTEMPTS - a) + 1 := by
      unfold MAX_ATTEMPTS at *
      omega
    have hok0 : op a = Except.ok v := by simpa using hok
    rw [h6]
    simp only [attemptList, retryLoop, hok0]
    rfl
  | succ k ih =>
    intro a ha hak hfail hok
    have h6 : MAX_ATTEMPTS + 1 - a = (MAX_ATTEMPTS - a) + 1 := by
      unfold MAX_ATTEMPTS at *
      omega
    obtain ⟨e, hoe, htr⟩ := hfail a le_rfl (by omega)
    have hcond : ¬(MAX_ATTEMPTS ≤ a ∨ shouldRetryError e = false) := by
      push_neg
      refine ⟨?_, ?_⟩
      · unfold MAX_ATTEMPTS at *
        omega
      · simp [htr]
    have h6r : MAX_ATTEMPTS + 1 - (a + 1) = MAX_ATTEMPTS - a := by omega
    have hih := ih (a + 1) (by omega) (by omega)
      (fun i h1 h2 => hfail i (by omega) (by omega))
      (by
        have h : a + 1 + k = a + (k + 1) := by omega
        rw [h]
        exact hok)
    rw [h6r] at hih
    rw [h6]
    simp only [attemptList, retryLoop, hoe, if_neg hcond, hih]
    rfl

/-- Claim C6: an operation failing with a transient-signature error exactly
k times (k below the attempt cap of 5) and then succeeding makes the
executor return the success result after exactly k backoff retries; the
computed delay before each retry is min(8, 0.8 * 2 ** (attempt - 1))
seconds, non-decreasing across retries, and the jitter added to each sleep
lies in [20 percent, 50 percent] of the computed delay. -/
theorem c6_retry_success {α : Type} (op : Nat → Except String α) (u : Nat → ℚ)
    (k : Nat) (v : α)
    (hk : k < MAX_ATTEMPTS)
    (hfail : ∀ i, 1 ≤ i → i ≤ k → ∃ e, op i = Except.error e ∧ shouldRetryError e = true)
    (hok : op (k + 1) = Except.ok v)
    (hu : ∀ i, 1/5 ≤ u i ∧ u i ≤ 1/2) :
    requestWithRetries op u = (Except.ok v, retryTrace u 1 k)
    ∧ (retryTrace u 1 k).length = k
    ∧ (∀ i, backoffDelay i = min 8 (4/5 * 2 ^ (i - 1)))
    ∧ (∀ i j, i ≤ j → backoffDelay i ≤ backoffDelay j)
    ∧ (∀ i, backoffDelay i * (1/5) ≤ backoffDelay i * u i
        ∧ backoffDelay i * u i ≤ backoffDelay i * (1/2)) := by
  refine ⟨?_, ?_, ?_, ?_, ?_⟩
  · have h := retryLoop_ok op u v k 1 le_rfl (by unfold MAX_ATTEMPTS at *; omega)
      (fun i h1 h2 => hfail i h1 (by omega))
      (by
        have h1k : 1 + k = k + 1 := by omega
        rw [h1k]
        exact hok)
    unfold requestWithRetries
    have h5 : MAX_ATTEMPTS + 1 - 1 = MAX_ATTEMPTS := rfl
    rw [h5] at h
    exact h
  · unfold retryTrace
    rw [List.length_map]
    exact attemptList_length k 1
  · intro i
    rfl
  · intro i j hij
    unfold backoffDelay
    refine min_le_min le_rfl ?_
    refine mul_le_mul_of_nonneg_left ?_ (by unfold BASE_DELAY; norm_num)
    exact pow_le_pow_right₀ (by norm_num) (Nat.sub_le_sub_right hij 1)
  · intro i
    have hd : (0 : ℚ) ≤ backoffDelay i := by
      unfold backoffDelay MAX_DELAY BASE_DELAY
      refine le_min (by norm_num) (by positivity)
    exact ⟨mul_le_mul_of_nonneg_left (hu i).1 hd, mul_le_mul_of_nonneg_left (hu i).2 hd⟩

theorem quarterBounds (_i : Nat) : (1/5 : ℚ) ≤ 1/4 ∧ (1/4 : ℚ) ≤ 1/2 := by norm_num

/-- Witness for C6: two transient failures (a timeout, then a 429) followed
by success return the success value with the expected two-entry backoff
trace. -/
theorem c6_witness :
    requestWithRetries
        (fun i => if i = 1 then Except.error "timeout"
          else if i = 2 then Except.error "429" else Except.ok (42 : Nat))
        (fun _ => (1/4 : ℚ))
      = (Except.ok 42, retryTrace (fun _ => (1/4 : ℚ)) 1 2) :=
  (c6_retry_success
    (fun i => if i = 1 then Except.error "timeout"
      else if i = 2 then Except.error "429" else Except.ok (42 : Nat))
    (fun _ => (1/4 : ℚ)) 2 42 (by decide)
    (by
      intro i h1 h2
      interval_cases i
      · exact ⟨"timeout", rfl, by decide⟩
      · exact ⟨"429", rfl, by decide⟩)
    rfl
    (fun i => quarterBounds i)).1

/-! ## Fetcher normalization theorems (C8) -/

/-- Counterexample to claim C8 as stated: in the leaderboard validation path
(validate_metric) a non-numeric official metric value does NOT become zero;
int() raises and the row is skipped via continue, while the career-fetch
normalization of the very same cell yields zero. -/
theorem c8_counterexample :
    validateMetricRow [("PTS", CellValue.text "abc")] "PTS" "pts" 10 = none
    ∧ normalizeCell [("PTS", CellValue.text "abc")] "PTS" = 0 :=
  ⟨by decide, by decide⟩

/-- Claim C8 (amended): in the per-season career fetch normalization every
metric cell is coerced to an integer with non-numeric or missing values
treated as zero; in the leaderboard validation path a row whose official
metric value is missing or non-numeric is skipped (dropped from the report)
rather than treated as zero, and a numeric value yields the report entry
with delta = db_total - official. -/
theorem c8_coercion_amended :
    (∀ (row : List (String × CellValue)) (col : String),
      alookup col row = none → normalizeCell row col = 0)
    ∧ (∀ (row : List (String × CellValue)) (col : String) (v : CellValue),
      alookup col row = some v → toNumericCoerce v = none → normalizeCell row col = 0)
    ∧ (∀ (row : List (String × CellValue)) (tk tkl : String) (dbT : Int),
      pyInt (officialValueOf row tk tkl) = none → validateMetricRow row tk tkl dbT = none)
    ∧ (∀ (row : List (String × CellValue)) (tk tkl : String) (dbT n : Int),
      pyInt (officialValueOf row tk tkl) = some n →
      validateMetricRow row tk tkl dbT = some (n, dbT - n)) := by
  refine ⟨?_, ?_, ?_, ?_⟩
  · intro row col h
    simp [normalizeCell, h]
  · intro row col v h hv
    simp [normalizeCell, h, coerceFillZeroInt, hv]
  · intro row tk tkl dbT h
    simp [validateMetricRow, h]
  · intro row tk tkl dbT n h
    simp [validateMetricRow, h]

/-- Witness for C8: concrete cells for each half of the amended claim. -/
theorem c8_witness :
    normalizeCell [("REB", CellValue.null)] "REB" = 0
    ∧ validateMetricRow [("REB", CellValue.null)] "REB" "reb" 7 = none :=
  ⟨c8_coercion_amended.2.1 [("REB", CellValue.null)] "REB" CellValue.null
      (by decide) (by decide),
    c8_coercion_amended.2.2.1 [("REB", CellValue.null)] "REB" "reb" 7 (by decide)⟩

/-! ## Totals Cache theorems (C9) -/

theorem alookup_append_right {β : Type} (k : String) (l1 l2 : List (String × β))
    (h : alookup k l1 = none) : alookup k (l1 ++ l2) = alookup k l2 := by
  induction l1 with
  | nil => simp
  | cons e rest ih =>
    by_cases hk : k = e.1
    · simp [alookup, hk] at h
    · simp only [alookup, hk, if_false] at h
      simp only [List.cons_append, alookup, hk, if_false]
      exact ih h

theorem alookup_setCacheEntry (cache : List (String × List (String × Int)))
    (pid : String) (totals : List (String × Int)) :
    alookup pid (setCacheEntry cache pid totals) = some totals := by
  unfold setCacheEntry
  by_cases h : (alookup pid cache).isSome
  · rw [if_pos h]
    obtain ⟨rec, hrec⟩ := Option.isSome_iff_exists.mp h
    clear h
    induction cache with
    | nil => simp [alookup] at hrec
    | cons e rest ih =>
      by_cases hk : pid = e.1
      · simp [alookup, hk]
      · simp only [alookup, hk, if_false] at hrec
        simp only [List.map_cons]
        rw [show (if e.1 = pid then (pid, totals) else e) = e from if_neg (fun hh => hk hh.symm)]
        simp only [alookup, hk, if_false]
        exact ih hrec
  · rw [if_neg h]
    rw [alookup_append_right pid cache _ (Option.not_isSome_iff_eq_none.mp h)]
    simp [alookup]

/-- Claim C9: cache read contract.  A parse failure or absent file loads an
empty cache; a cached record containing all five tracked metric keys is
returned as-is with no remote call and no cache change; a missing or
partial record is a miss that triggers the remote fetch; and a successful
fresh fetch is returned and written back to the cache. -/
theorem c9_cache_read :
    (loadCache CacheFile.corrupt = [] ∧ loadCache CacheFile.absent = []
      ∧ loadCache CacheFile.parsedOther = [])
    ∧ (∀ (cache : List (String × List (String × Int))) (pid : String)
        (rec : List (String × Int)) (remote : RemoteResult),
        alookup pid cache = some rec → fullRecord rec = true →
        fetchOfficialTotals cache pid remote = ⟨some rec, false, cache⟩)
    ∧ (∀ (cache : List (String × List (String × Int))) (pid : String)
        (remote : RemoteResult),
        cacheHit cache pid = none → (fetchOfficialTotals cache pid remote).remoteCalled = true)
    ∧ (∀ (cache : List (String × List (String × Int))) (pid : String)
        (totals : List (String × Int)),
        cacheHit cache pid = none →
        fetchOfficialTotals cache pid (RemoteResult.frames totals)
            = ⟨some totals, true, setCacheEntry cache pid totals⟩
        ∧ alookup pid (setCacheEntry cache pid totals) = some totals) := by
  refine ⟨⟨rfl, rfl, rfl⟩, ?_, ?_, ?_⟩
  · intro cache pid rec remote hrec hfull
    unfold fetchOfficialTotals cacheHit
    rw [hrec]
    simp [hfull]
  · intro cache pid remote h
    unfold fetchOfficialTotals
    rw [h]
    cases remote <;> rfl
  · intro cache pid totals h
    refine ⟨?_, alookup_setCacheEntry cache pid totals⟩
    unfold fetchOfficialTotals
    rw [h]

/-- Witness for C9: a concrete full cache record is served without a remote
call even when the remote would raise. -/
theorem c9_witness :
    fetchOfficialTotals
        [("p1", [("PTS", 100), ("REB", 200), ("AST", 300), ("STL", 40), ("BLK", 50)])]
        "p1" RemoteResult.raises
      = ⟨some [("PTS", 100), ("REB", 200), ("AST", 300), ("STL", 40), ("BLK", 50)],
          false,
          [("p1", [("PTS", 100), ("REB", 200), ("AST", 300), ("STL", 40), ("BLK", 50)])]⟩ :=
  c9_cache_read.2.1
    [("p1", [("PTS", 100), ("REB", 200), ("AST", 300), ("STL", 40), ("BLK", 50)])]
    "p1" [("PTS", 100), ("REB", 200), ("AST", 300), ("STL", 40), ("BLK", 50)]
    RemoteResult.raises (by decide) (by decide)

/-! ## Season Aligner theorems (C3) -/

theorem mem_alignedSeasons (nba db : List (String × MetricVals)) (s : String) :
    s ∈ alignedSeasons nba db ↔ s ∈ keysOf nba ∨ s ∈ keysOf db := by
  simp only [alignedSeasons, List.mem_append, List.mem_filter, decide_eq_true_eq]
  constructor
  · rintro (h | ⟨h, _⟩)
    · exact Or.inl h
    · exact Or.inr h
  · rintro (h | h)
    · exact Or.inl h
    · by_cases hn : s ∈ keysOf nba
      · exact Or.inl hn
      · exact Or.inr ⟨h, hn⟩

theorem alignRows_seasons (nba db : List (String × MetricVals)) :
    (alignRows nba db).map AlignedRow.season = alignedSeasons nba db := by
  unfold alignRows
  rw [List.map_map]
  calc (alignedSeasons nba db).map (AlignedRow.season ∘ alignedRowAt nba db)
      = (alignedSeasons nba db).map id := List.map_congr_left (fun s _ => rfl)
    _ = alignedSeasons nba db := List.map_id _

/-- Claim C3: the Season Aligner is a full outer join on the season key.
A season appears among the aligned rows iff it appears in at least one of
the two input series, and a season present on only one side has the metric
values of the absent side zero-filled in the aligned row used for delta
computation. -/
theorem c3_outer_join (nba db : List (String × MetricVals)) (s : String) :
    (s ∈ (alignRows nba db).map AlignedRow.season ↔ s ∈ keysOf nba ∨ s ∈ keysOf db)
    ∧ (s ∈ keysOf nba → s ∉ keysOf db → (alignedRowAt nba db s).dbVals = zeroVals)
    ∧ (s ∈ keysOf db → s ∉ keysOf nba → (alignedRowAt nba db s).nbaVals = zeroVals) := by
  refine ⟨?_, ?_, ?_⟩
  · rw [alignRows_seasons]
    exact mem_alignedSeasons nba db s
  · intro _ h2
    unfold alignedRowAt
    rw [(alookup_eq_none s db).mpr h2]
    rfl
  · intro _ h2
    unfold alignedRowAt
    rw [(alookup_eq_none s nba).mpr h2]
    rfl

/-- Witness for C3: a season present only in the official series appears in
the aligned rows with zero-filled local values. -/
theorem c3_witness :
    ("2019-20" ∈ (alignRows [("2019-20", ⟨100, 0, 0, 0, 0⟩)] []).map AlignedRow.season)
    ∧ (alignedRowAt [("2019-20", ⟨100, 0, 0, 0, 0⟩)] [] "2019-20").dbVals = zeroVals :=
  ⟨(c3_outer_join [("2019-20", ⟨100, 0, 0, 0, 0⟩)] [] "2019-20").1.mpr
      (Or.inl (by decide)),
    (c3_outer_join [("2019-20", ⟨100, 0, 0, 0, 0⟩)] [] "2019-20").2.1
      (by decide) (by decide)⟩

/-! ## Delta persistence theorems (C2) -/

theorem keys_processPlayer_gen (nba db : List (String × MetricVals)) (ks : List String) :
    keysOf (ks.filterMap (fun t =>
        if hasNonzeroDelta (deltaAt nba db t) then some (t, deltaAt nba db t) else none))
      = ks.filter (fun t => hasNonzeroDelta (deltaAt nba db t)) := by
  induction ks with
  | nil => rfl
  | cons t rest ih =>
    cases h : hasNonzeroDelta (deltaAt nba db t) with
    | true =>
      simp only [keysOf, List.filterMap_cons, List.filter_cons, h, if_true, List.map_cons] at ih ⊢
      rw [ih]
    | false =>
      simp only [keysOf, List.filterMap_cons, List.filter_cons, h] at ih ⊢
      simpa using ih

theorem alookup_processPlayer_gen_nonzero (nba db : List (String × MetricVals))
    (ks : List String) (s : String) (hnz : hasNonzeroDelta (deltaAt nba db s) = true) :
    s ∈ ks →
    alookup s (ks.filterMap (fun t =>
        if hasNonzeroDelta (deltaAt nba db t) then some (t, deltaAt nba db t) else none))
      = some (deltaAt nba db s) := by
  induction ks with
  | nil => intro h; cases h
  | cons t rest ih =>
    intro hmem
    by_cases hst : s = t
    · subst hst
      simp [List.filterMap_cons, hnz, alookup]
    · have hrest : s ∈ rest := by
        rcases List.mem_cons.mp hmem with h | h
        · exact absurd h hst
        · exact h
      cases ht : hasNonzeroDelta (deltaAt nba db t) with
      | true =>
        simp only [List.filterMap_cons, ht, if_true, alookup, hst, if_false]
        exact ih hrest
      | false =>
        simp only [List.filterMap_cons, ht]
        simpa using ih hrest

theorem processPlayer_keys (nba db : List (String × MetricVals)) :
    keysOf (processPlayer nba db)
      = (alignedSeasons nba db).filter (fun t => hasNonzeroDelta (deltaAt nba db t)) :=
  keys_processPlayer_gen nba db (alignedSeasons nba db)

theorem alookup_processPlayer_zero (nba db : List (String × MetricVals)) (s : String)
    (hz : hasNonzeroDelta (deltaAt nba db s) = false) :
    alookup s (processPlayer nba db) = none := by
  rw [alookup_eq_none, processPlayer_keys]
  intro hmem
  rcases List.mem_filter.mp hmem with ⟨_, hp⟩
  rw [hz] at hp
  cases hp

theorem alookup_processPlayer_nonzero (nba db : List (String × MetricVals)) (s : String)
    (hnz : hasNonzeroDelta (deltaAt nba db s) = true) (hs : s ∈ alignedSeasons nba db) :
    alookup s (processPlayer nba db) = some (deltaAt nba db s) :=
  alookup_processPlayer_gen_nonzero nba db (alignedSeasons nba db) s hnz hs

theorem alignedSeasons_nodup (nba db : List (String × MetricVals))
    (hn : (keysOf nba).Nodup) (hd : (keysOf db).Nodup) :
    (alignedSeasons nba db).Nodup := by
  unfold alignedSeasons
  refine List.Nodup.append hn (hd.filter _) ?_
  intro s hs hmem
  rcases List.mem_filter.mp hmem with ⟨_, hdec⟩
  exact (of_decide_eq_true hdec) hs

theorem processPlayer_keys_nodup (nba db : List (String × MetricVals))
    (hn : (keysOf nba).Nodup) (hd : (keysOf db).Nodup) :
    (keysOf (processPlayer nba db)).Nodup := by
  rw [processPlayer_keys]
  exact (alignedSeasons_nodup nba db hn hd).filter _

theorem hasKey_append (t1 t2 : List OverrideRecord) (k : OverrideKey) :
    hasKey (t1 ++ t2) k = (hasKey t1 k || hasKey t2 k) := by
  simp [hasKey, List.any_append]

theorem upsert_fresh (table : List OverrideRecord) (pid season : String)
    (deltas : List (String × Int))
    (h : hasKey table ⟨pid, season, regularSeason⟩ = false) :
    upsertOverride table pid season deltas
      = table ++ [⟨⟨pid, season, regularSeason⟩, mkVals deltas⟩] := by
  unfold upsertOverride
  rw [if_neg]
  simp [h]

theorem foldl_upsert_fresh (pid : String) (entries : List (String × MetricVals)) :
    ∀ (table : List OverrideRecord), (keysOf entries).Nodup →
    (∀ e ∈ entries, hasKey table ⟨pid, e.1, regularSeason⟩ = false) →
    entries.foldl (fun t e => upsertOverride t pid e.1 (deltasDict e.2)) table
      = table ++ entries.map (recOf pid) := by
  induction entries with
  | nil => intro table _ _; simp
  | cons e rest ih =>
    intro table hnd hfresh
    simp only [List.foldl_cons]
    rw [upsert_fresh table pid e.1 (deltasDict e.2) (hfresh e (List.mem_cons_self e rest))]
    have hnd2 : (keysOf rest).Nodup := by
      simp only [keysOf, List.map_cons, List.nodup_cons] at hnd
      exact hnd.2
    have hnotin : e.1 ∉ keysOf rest := by
      simp only [keysOf, List.map_cons, List.nodup_cons] at hnd
      exact hnd.1
    have hfresh2 : ∀ x ∈ rest,
        hasKey (table ++ [⟨⟨pid, e.1, regularSeason⟩, mkVals (deltasDict e.2)⟩])
          ⟨pid, x.1, regularSeason⟩ = false := by
      intro x hx
      rw [hasKey_append]
      have h1 : hasKey table ⟨pid, x.1, regularSeason⟩ = false :=
        hfresh x (List.mem_cons_of_mem e hx)
      have h2 : hasKey [⟨⟨pid, e.1, regularSeason⟩, mkVals (deltasDict e.2)⟩]
          ⟨pid, x.1, regularSeason⟩ = false := by
        have hne : e.1 ≠ x.1 := by
          intro hc
          exact hnotin (hc ▸ List.mem_map_of_mem Prod.fst hx)
        simp [hasKey, OverrideKey.mk.injEq, hne]
      rw [h1, h2]
      rfl
    have hih := ih
      (table ++ [(⟨⟨pid, e.1, regularSeason⟩, mkVals (deltasDict e.2)⟩ : OverrideRecord)])
      hnd2 hfresh2
    rw [hih]
    simp [recOf, List.append_assoc]

theorem applyProcessPlayer_empty (pid : String) (nba db : List (String × MetricVals))
    (hnd : (keysOf (processPlayer nba db)).Nodup) :
    applyProcessPlayer [] pid nba db = (processPlayer nba db).map (recOf pid) := by
  unfold applyProcessPlayer
  rw [foldl_upsert_fresh pid (processPlayer nba db) [] hnd (fun e _ => rfl)]
  rfl

theorem findOverride_map_recOf (pid : String) (entries : List (String × MetricVals))
    (s : String) :
    findOverride (entries.map (recOf pid)) ⟨pid, s, regularSeason⟩ = alookup s entries := by
  induction entries with
  | nil => rfl
  | cons e rest ih =>
    by_cases h : e.1 = s
    · have hpred : (decide ((recOf pid e).key = (⟨pid, s, regularSeason⟩ : OverrideKey))) = true := by
        simp [recOf, OverrideKey.mk.injEq, h]
      simp only [List.map_cons, findOverride, List.find?_cons, hpred, Option.map_some']
      rw [show (recOf pid e).vals = e.2 from mkVals_deltasDict e.2]
      simp [alookup, h.symm]
    · have hpred : (decide ((recOf pid e).key = (⟨pid, s, regularSeason⟩ : OverrideKey))) = false := by
        simp [recOf, OverrideKey.mk.injEq, h]
      simp only [List.map_cons, findOverride, List.find?_cons, hpred]
      have hstep : alookup s (e :: rest) = alookup s rest := by
        simp only [alookup]
        rw [if_neg (fun hc => h hc.symm)]
      rw [hstep]
      exact ih

/-- Claim C2: an aligned season whose tracked metric deltas are all zero is
silently dropped — no override record is written for that (player, season) —
while an aligned season with at least one nonzero metric delta is upserted
with exactly its delta set. -/
theorem c2_zero_delta_seasons (pid : String) (nba db : List (String × MetricVals))
    (hn : (keysOf nba).Nodup) (hd : (keysOf db).Nodup) :
    ∀ s ∈ alignedSeasons nba db,
      (deltaAt nba db s = zeroVals →
        findOverride (applyProcessPlayer [] pid nba db) ⟨pid, s, regularSeason⟩ = none)
      ∧ (deltaAt nba db s ≠ zeroVals →
        findOverride (applyProcessPlayer [] pid nba db) ⟨pid, s, regularSeason⟩
          = some (deltaAt nba db s)) := by
  intro s hs
  have hnd := processPlayer_keys_nodup nba db hn hd
  rw [applyProcessPlayer_empty pid nba db hnd, findOverride_map_recOf]
  constructor
  · intro hz
    apply alookup_processPlayer_zero
    rw [hz]
    rfl
  · intro hnz
    refine alookup_processPlayer_nonzero nba db s ?_ hs
    cases hb : hasNonzeroDelta (deltaAt nba db s) with
    | true => rfl
    | false => exact absurd (eq_zeroVals_of_not_nonzero _ hb) hnz

/-- Witness for C2: season B matches on both sides (all-zero delta, no
record written); season A exists only officially (nonzero delta, upserted). -/
theorem c2_witness :
    findOverride
        (applyProcessPlayer [] "p" [("A", ⟨1, 0, 0, 0, 0⟩), ("B", ⟨2, 0, 0, 0, 0⟩)]
          [("B", ⟨2, 0, 0, 0, 0⟩)])
        ⟨"p", "B", regularSeason⟩ = none
    ∧ findOverride
        (applyProcessPlayer [] "p" [("A", ⟨1, 0, 0, 0, 0⟩), ("B", ⟨2, 0, 0, 0, 0⟩)]
          [("B", ⟨2, 0, 0, 0, 0⟩)])
        ⟨"p", "A", regularSeason⟩
        = some (deltaAt [("A", ⟨1, 0, 0, 0, 0⟩), ("B", ⟨2, 0, 0, 0, 0⟩)]
            [("B", ⟨2, 0, 0, 0, 0⟩)] "A") :=
  ⟨((c2_zero_delta_seasons "p" [("A", ⟨1, 0, 0, 0, 0⟩), ("B", ⟨2, 0, 0, 0, 0⟩)]
      [("B", ⟨2, 0, 0, 0, 0⟩)] (by decide) (by decide)) "B" (by decide)).1 (by decide),
    ((c2_zero_delta_seasons "p" [("A", ⟨1, 0, 0, 0, 0⟩), ("B", ⟨2, 0, 0, 0, 0⟩)]
      [("B", ⟨2, 0, 0, 0, 0⟩)] (by decide) (by decide)) "A" (by decide)).2 (by decide)⟩

/-! ## Round-trip theorems (C1) -/

theorem sum_map_ite_zero (ks : List String) (a : String) (x : Int)
    (hnd : ks.Nodup) (ha : a ∈ ks) :
    (ks.map (fun k => if a = k then x else 0)).sum = x := by
  induction ks with
  | nil => cases ha
  | cons k rest ih =>
    rcases List.mem_cons.mp ha with h | h
    · subst h
      have hnotin : a ∉ rest := (List.nodup_cons.mp hnd).1
      have hz : ((rest.map fun k => if a = k then x else 0)).sum = 0 := by
        apply List.sum_eq_zero
        intro y hy
        rcases List.mem_map.mp hy with ⟨k, hk, rfl⟩
        have hne : a ≠ k := fun hak => hnotin (hak ▸ hk)
        simp [hne]
      simp [hz]
    · have hk2 : k ∉ rest := (List.nodup_cons.mp hnd).1
      have hne : a ≠ k := fun h2 => hk2 (h2 ▸ h)
      rw [List.map_cons, List.sum_cons, if_neg hne, ih (List.nodup_cons.mp hnd).2 h]
      simp

theorem sum_map_add {α : Type} (l : List α) (f g : α → Int) :
    (l.map (fun x => f x + g x)).sum = (l.map f).sum + (l.map g).sum := by
  induction l with
  | nil => simp
  | cons a rest ih =>
    simp only [List.map_cons, List.sum_cons, ih]
    ring

theorem sum_map_sub {α : Type} (l : List α) (f g : α → Int) :
    (l.map (fun x => f x - g x)).sum = (l.map f).sum - (l.map g).sum := by
  induction l with
  | nil => simp
  | cons a rest ih =>
    simp only [List.map_cons, List.sum_cons, ih]
    ring

theorem sum_groupby {α : Type} (key : α → String) (g : α → Int) :
    ∀ (rows : List α) (ks : List String), ks.Nodup → (∀ r ∈ rows, key r ∈ ks) →
    (ks.map (fun s => ((rows.filter (fun r => decide (key r = s))).map g).sum)).sum
      = (rows.map g).sum := by
  intro rows
  induction rows with
  | nil =>
    intro ks _ _
    simp
  | cons r rest ih =>
    intro ks hnd hcov
    have hstep : ∀ s ∈ ks, (((r :: rest).filter (fun x => decide (key x = s))).map g).sum
        = (if key r = s then g r else 0)
          + ((rest.filter (fun x => decide (key x = s))).map g).sum := by
      intro s _
      by_cases h : key r = s
      · simp [List.filter_cons, h]
      · simp [List.filter_cons, h]
    calc (ks.map (fun s => (((r :: rest).filter (fun x => decide (key x = s))).map g).sum)).sum
        = (ks.map (fun s => (if key r = s then g r else 0)
            + ((rest.filter (fun x => decide (key x = s))).map g).sum)).sum :=
          congrArg List.sum (List.map_congr_left hstep)
      _ = (ks.map (fun s => if key r = s then g r else 0)).sum
          + (ks.map (fun s => ((rest.filter (fun x => decide (key x = s))).map g).sum)).sum :=
          sum_map_add ks _ _
      _ = g r + (rest.map g).sum := by
          rw [sum_map_ite_zero ks (key r) (g r) hnd (hcov r (List.mem_cons_self r rest)),
            ih ks hnd (fun x hx => hcov x (List.mem_cons_of_mem r hx))]
      _ = ((r :: rest).map g).sum := by simp

theorem sum_alookup (g : MetricVals → Int) (hg : g zeroVals = 0) :
    ∀ (rows : List (String × MetricVals)) (ks : List String),
    (keysOf rows).Nodup → ks.Nodup → (∀ s ∈ keysOf rows, s ∈ ks) →
    (ks.map (fun s => g ((alookup s rows).getD zeroVals))).sum
      = (rows.map (fun p => g p.2)).sum := by
  intro rows
  induction rows with
  | nil =>
    intro ks _ _ _
    rw [List.map_nil, List.sum_nil]
    apply List.sum_eq_zero
    intro y hy
    rcases List.mem_map.mp hy with ⟨s, _, rfl⟩
    simp [alookup, hg]
  | cons e rest ih =>
    intro ks hr hk hsub
    have hr2 : (e.1 :: keysOf rest).Nodup := by simpa [keysOf] using hr
    have hnotin : e.1 ∉ keysOf rest := (List.nodup_cons.mp hr2).1
    have he1 : e.1 ∈ ks := hsub e.1 (by simp [keysOf])
    have hstep : ∀ s ∈ ks, g ((alookup s (e :: rest)).getD zeroVals)
        = (if e.1 = s then g e.2 else 0) + g ((alookup s rest).getD zeroVals) := by
      intro s _
      by_cases h : e.1 = s
      · subst h
        rw [show alookup e.1 (e :: rest) = some e.2 from by simp [alookup]]
        rw [(alookup_eq_none e.1 rest).mpr hnotin]
        simp [hg]
      · have hs2 : alookup s (e :: rest) = alookup s rest := by
          simp only [alookup]
          rw [if_neg (fun hc => h hc.symm)]
        rw [hs2, if_neg h]
        simp
    calc (ks.map (fun s => g ((alookup s (e :: rest)).getD zeroVals))).sum
        = (ks.map (fun s => (if e.1 = s then g e.2 else 0)
            + g ((alookup s rest).getD zeroVals))).sum :=
          congrArg List.sum (List.map_congr_left hstep)
      _ = (ks.map (fun s => if e.1 = s then g e.2 else 0)).sum
          + (ks.map (fun s => g ((alookup s rest).getD zeroVals))).sum := sum_map_add ks _ _
      _ = g e.2 + (rest.map (fun p => g p.2)).sum := by
          rw [sum_map_ite_zero ks e.1 (g e.2) hk he1,
            ih ks (List.nodup_cons.mp hr2).2 hk
              (fun s hs => hsub s (by simp [keysOf] at hs ⊢; exact Or.inr hs))]
      _ = ((e :: rest).map (fun p => g p.2)).sum := by simp

theorem sum_processPlayer_gen (nba db : List (String × MetricVals))
    (g : MetricVals → Int) (hg : g zeroVals = 0) (ks : List String) :
    ((ks.filterMap (fun t =>
        if hasNonzeroDelta (deltaAt nba db t) then some (t, deltaAt nba db t) else none)).map
          (fun e => g e.2)).sum
      = (ks.map (fun t => g (deltaAt nba db t))).sum := by
  induction ks with
  | nil => rfl
  | cons t rest ih =>
    cases h : hasNonzeroDelta (deltaAt nba db t) with
    | true => simp [List.filterMap_cons, h, ih]
    | false =>
      have hz : deltaAt nba db t = zeroVals := eq_zeroVals_of_not_nonzero _ h
      simp [List.filterMap_cons, h, ih, hz, hg, hasNonzeroDelta_zeroVals]

theorem keysOf_map_pair {β : Type} (ks : List String) (f : String → β) :
    keysOf (ks.map (fun s => (s, f s))) = ks := by
  induction ks with
  | nil => rfl
  | cons t rest ih => simp only [List.map_cons, keysOf] at ih ⊢; rw [ih]

theorem dbCareerBySeason_def (log : List GameRow) (pid : String) :
    dbCareerBySeason log pid
      = ((playerRegularGames log pid).map GameRow.season).dedup.map
          (fun s => (s, sumVals (((playerRegularGames log pid).filter
            (fun g => decide (g.season = s))).map GameRow.vals))) := rfl

theorem keysOf_dbCareer_nodup (log : List GameRow) (pid : String) :
    (keysOf (dbCareerBySeason log pid)).Nodup := by
  rw [dbCareerBySeason_def, keysOf_map_pair]
  exact List.nodup_dedup _

theorem sum_dbCareer (log : List GameRow) (pid col : String) :
    ((dbCareerBySeason log pid).map (fun p => colOf p.2 col)).sum
      = ((playerRegularGames log pid).map (fun g => colOf g.vals col)).sum := by
  rw [dbCareerBySeason_def, List.map_map]
  have hcong : ∀ s ∈ ((playerRegularGames log pid).map GameRow.season).dedup,
      ((fun p => colOf p.2 col) ∘ fun s => (s, sumVals (((playerRegularGames log pid).filter
          (fun g => decide (g.season = s))).map GameRow.vals))) s
        = (((playerRegularGames log pid).filter (fun g => decide (g.season = s))).map
            (fun g => colOf g.vals col)).sum := by
    intro s _
    simp only [Function.comp_apply, colOf_sumVals, List.map_map]
    rfl
  rw [List.map_congr_left hcong]
  exact sum_groupby GameRow.season (fun g => colOf g.vals col) (playerRegularGames log pid)
    ((playerRegularGames log pid).map GameRow.season).dedup (List.nodup_dedup _)
    (fun r hr => List.mem_dedup.mpr (List.mem_map_of_mem GameRow.season hr))

theorem overrideRowsFor_map_recOf (pid : String) (entries : List (String × MetricVals)) :
    overrideRowsFor (entries.map (recOf pid)) pid = entries.map (recOf pid) := by
  unfold overrideRowsFor
  rw [List.filter_eq_self.mpr]
  intro r hr
  rcases List.mem_map.mp hr with ⟨e, _, rfl⟩
  simp [recOf]

theorem reconciledTable_def (log : List GameRow) (pid : String)
    (nba : List (String × MetricVals)) :
    reconciledTable log pid nba
      = applyProcessPlayer [] pid nba (dbCareerBySeason log pid) := rfl

/-- Claim C1: the round-trip law.  Reconciling one player from an empty
override table persists, for every aligned season, exactly the delta
official minus local (zero-delta seasons hold no record, i.e. delta zero),
and the corrected-total read of get_db_total — raw game-log sum plus
override sum — reproduces the official career total for every tracked
metric column. -/
theorem c1_roundtrip_law (log : List GameRow) (pid : String)
    (nba : List (String × MetricVals)) (hn : (keysOf nba).Nodup) :
    (∀ s ∈ alignedSeasons nba (dbCareerBySeason log pid),
      (findOverride (reconciledTable log pid nba) ⟨pid, s, regularSeason⟩).getD zeroVals
        = subVals ((alookup s nba).getD zeroVals)
            ((alookup s (dbCareerBySeason log pid)).getD zeroVals))
    ∧ (∀ col ∈ dbCols,
      getDbTotal log (reconciledTable log pid nba) pid col = officialCareerTotal nba col) := by
  have hd : (keysOf (dbCareerBySeason log pid)).Nodup := keysOf_dbCareer_nodup log pid
  have hndp : (keysOf (processPlayer nba (dbCareerBySeason log pid))).Nodup :=
    processPlayer_keys_nodup _ _ hn hd
  have htab := applyProcessPlayer_empty pid nba (dbCareerBySeason log pid) hndp
  have haligned := alignedSeasons_nodup nba (dbCareerBySeason log pid) hn hd
  constructor
  · intro s hs
    rw [reconciledTable_def, htab, findOverride_map_recOf]
    cases hb : hasNonzeroDelta (deltaAt nba (dbCareerBySeason log pid) s) with
    | true =>
      rw [alookup_processPlayer_nonzero _ _ s hb hs]
      rfl
    | false =>
      rw [alookup_processPlayer_zero _ _ s hb]
      exact (eq_zeroVals_of_not_nonzero _ hb).symm
  · intro col _
    have h1 : ((processPlayer nba (dbCareerBySeason log pid)).map
        (fun e => colOf e.2 col)).sum
        = ((alignedSeasons nba (dbCareerBySeason log pid)).map
            (fun t => colOf (deltaAt nba (dbCareerBySeason log pid) t) col)).sum :=
      sum_processPlayer_gen nba (dbCareerBySeason log pid) (fun v => colOf v col)
        (colOf_zeroVals col) (alignedSeasons nba (dbCareerBySeason log pid))
    have h2 : ∀ t ∈ alignedSeasons nba (dbCareerBySeason log pid),
        colOf (deltaAt nba (dbCareerBySeason log pid) t) col
          = colOf ((alookup t nba).getD zeroVals) col
            - colOf ((alookup t (dbCareerBySeason log pid)).getD zeroVals) col :=
      fun t _ => colOf_subVals _ _ col
    have h3 : ((alignedSeasons nba (dbCareerBySeason log pid)).map
        (fun t => colOf (deltaAt nba (dbCareerBySeason log pid) t) col)).sum
        = ((alignedSeasons nba (dbCareerBySeason log pid)).map
            (fun t => colOf ((alookup t nba).getD zeroVals) col)).sum
          - ((alignedSeasons nba (dbCareerBySeason log pid)).map
            (fun t => colOf ((alookup t (dbCareerBySeason log pid)).getD zeroVals) col)).sum := by
      rw [List.map_congr_left h2]
      exact sum_map_sub _ _ _
    have h4 : ((alignedSeasons nba (dbCareerBySeason log pid)).map
        (fun t => colOf ((alookup t nba).getD zeroVals) col)).sum
        = (nba.map (fun p => colOf p.2 col)).sum :=
      sum_alookup (fun v => colOf v col) (colOf_zeroVals col) nba
        (alignedSeasons nba (dbCareerBySeason log pid)) hn haligned
        (fun s hsk => (mem_alignedSeasons nba (dbCareerBySeason log pid) s).mpr (Or.inl hsk))
    have h5 : ((alignedSeasons nba (dbCareerBySeason log pid)).map
        (fun t => colOf ((alookup t (dbCareerBySeason log pid)).getD zeroVals) col)).sum
        = ((dbCareerBySeason log pid).map (fun p => colOf p.2 col)).sum :=
      sum_alookup (fun v => colOf v col) (colOf_zeroVals col) (dbCareerBySeason log pid)
        (alignedSeasons nba (dbCareerBySeason log pid)) hd haligned
        (fun s hsk => (mem_alignedSeasons nba (dbCareerBySeason log pid) s).mpr (Or.inr hsk))
    have h6 := sum_dbCareer log pid col
    have hovr : ((overrideRowsFor (reconciledTable log pid nba) pid).map
        (fun r => colOf r.vals col)).sum
        = (nba.map (fun p => colOf p.2 col)).sum
          - ((playerRegularGames log pid).map (fun g => colOf g.vals col)).sum := by
      rw [reconciledTable_def, htab, overrideRowsFor_map_recOf, List.map_map]
      have hcong : ∀ e ∈ processPlayer nba (dbCareerBySeason log pid),
          ((fun r => colOf r.vals col) ∘ recOf pid) e = colOf e.2 col := by
        intro e _
        simp only [Function.comp_apply, recOf]
        rw [mkVals_deltasDict]
      rw [List.map_congr_left hcong, h1, h3, h4, h5, h6]
    have hgoal : getDbTotal log (reconciledTable log pid nba) pid col
        = ((playerRegularGames log pid).map (fun g => colOf g.vals col)).sum
          + ((overrideRowsFor (reconciledTable log pid nba) pid).map
              (fun r => colOf r.vals col)).sum := rfl
    rw [hgoal, hovr]
    show _ = (nba.map (fun p => colOf p.2 col)).sum
    ring

/-- Witness for C1: one local game of 92 points against an official season
of 100 points; after reconciliation the corrected total reads 100. -/
theorem c1_witness :
    getDbTotal [⟨"p1", "2019-20", "Regular Season", ⟨92, 40, 30, 5, 2⟩⟩]
        (reconciledTable [⟨"p1", "2019-20", "Regular Season", ⟨92, 40, 30, 5, 2⟩⟩]
          "p1" [("2019-20", ⟨100, 40, 30, 5, 2⟩)])
        "p1" "points" = 100 :=
  (((c1_roundtrip_law [⟨"p1", "2019-20", "Regular Season", ⟨92, 40, 30, 5, 2⟩⟩]
      "p1" [("2019-20", ⟨100, 40, 30, 5, 2⟩)] (by decide)).2
    "points" (by decide)).trans (by decide))
